import Mathlib

/-!
# Verification of the `courier` Ontodocker client core

A shallow embedding, in Lean 4, of the parsing/normalization core of the
`courier` client SDK:

* `courier/http/url.py` — `normalize_base_url`, `join_url`;
* `courier/services/ontodocker/_compat.py` — `rectify_endpoints`,
  `parse_endpoints_response`, `extract_dataset_names`, `make_dataframe`;
* `courier/services/ontodocker/endpoints.py` — `EndpointsResource.list`;
* `courier/services/ontodocker/models.py` — `EndpointInfo`.

Strings are modelled as `List Char` internally (the Lean `String` wrapper is
used at the statement level).  Python exceptions are modelled by the
`PyError` inductive; fallible Python functions become `Except PyError _`.

Library functions the source calls are embedded from their reference
(CPython / pandas) semantics:

* `str.replace`, `str.strip`, `str.rstrip("/")`, `str.split("/")` —
  embedded directly (left-to-right non-overlapping replacement, etc.);
* `urllib.parse.urlsplit` / `urlunsplit` — embedded per CPython
  (`urllib/parse.py`): global removal of tab/CR/LF, left-strip of
  C0-controls/space, scheme detection (first character an ASCII letter, all
  scheme characters alphanumeric or `+-.`), netloc delimited by `/?#`,
  fragment split before query split.  The bracketed-host (IPv6 literal)
  validation that CPython 3.11 added to `urlsplit` is not modelled; the
  model is faithful for URLs whose authority is not a bracketed IP literal
  (none of the repository's formats use them).
* `pandas.DataFrame(rows, columns=...)` on a list of row lists — embedded
  per pandas `_list_to_arrays`: a ragged list of rows is padded with
  missing values (`None`/`NaN`, modelled as `Option.none`) to the maximum
  row width, and a `ValueError` is raised exactly when rows are present
  and `len(columns)` differs from that maximum width.  An empty row list
  yields an empty frame with the given column labels.
* `ast.literal_eval` — embedded for the literal subset the endpoints
  protocol uses (`None`/`True`/`False`, decimal integers with optional
  sign, single- or double-quoted strings with the common backslash
  escapes, and bracketed lists with optional trailing comma).  Floats,
  complex numbers, bytes, tuples, dicts, sets, triple-quoted strings and
  implicit string concatenation are outside the modelled subset.
-/

/-- Model of the exception kinds the embedded code can raise, following
`courier/exceptions.py` (`InvalidAddressError`, `ValidationError`,
`HttpError`) together with the Python builtins (`ValueError`, `KeyError`)
raised by `_compat.py`.  Distinct constructors model distinct exception
classes; the `String` argument is the message. -/
inductive PyError where
  | invalidAddress (msg : String)
  | validationError (msg : String)
  | valueError (msg : String)
  | keyError (msg : String)
  | httpError (msg : String)
  deriving DecidableEq, Repr

/-! ## Python string primitives -/

/-- Characters for which Python's `str.isspace` is true (and which
`str.strip()` with no argument removes): ASCII whitespace, the C1/Unicode
separators `\x1c`–`\x1f`, `\x85`, `\xa0`, and the Unicode space
characters. -/
def pyIsSpace (c : Char) : Bool :=
  (9 ≤ c.val && c.val ≤ 13) || (28 ≤ c.val && c.val ≤ 31) || c.val = 32 ||
  c.val = 0x85 || c.val = 0xa0 || c.val = 0x1680 ||
  (0x2000 ≤ c.val && c.val ≤ 0x200a) || c.val = 0x2028 || c.val = 0x2029 ||
  c.val = 0x202f || c.val = 0x205f || c.val = 0x3000

/-- Python `s.strip()`: remove leading and trailing whitespace. -/
def pyStrip (s : List Char) : List Char :=
  ((s.dropWhile pyIsSpace).reverse.dropWhile pyIsSpace).reverse

/-- Python `s.rstrip(ch)` for a single strip character: remove trailing
occurrences of `ch`. -/
def pyRstripChar (ch : Char) (s : List Char) : List Char :=
  (s.reverse.dropWhile (· = ch)).reverse

/-- Python `s.strip(ch)` for a single strip character: remove leading and
trailing occurrences of `ch`. -/
def pyStripChar (ch : Char) (s : List Char) : List Char :=
  ((s.dropWhile (· = ch)).reverse.dropWhile (· = ch)).reverse

/-- Python `s.split(sep)` for a one-character separator `sep`: split on
every occurrence; `"".split(sep) = [""]` and empty pieces are kept. -/
def pySplitChar (sep : Char) : List Char → List (List Char)
  | [] => [[]]
  | c :: cs =>
    if c = sep then [] :: pySplitChar sep cs
    else
      match pySplitChar sep cs with
      | t :: ts => (c :: t) :: ts
      | [] => [[c]]

/-- Worker for Python `s.replace(pat, repl)`: left-to-right, non-overlapping
replacement of every occurrence of `pat` by `repl`.  `fuel` bounds the
recursion; `pyReplace` supplies `fuel = s.length`, which the lemma
`replaceGo_fuel_irrel` shows is enough.  A match consumes
`pat.length` characters (`cs.drop (pat.length - 1)` after the head), as
CPython's `str.replace` does; an empty `pat` never matches here (the three
patterns the source uses are all non-empty, so Python's empty-pattern
behavior is irrelevant and is not modelled). -/
def replaceGo (pat repl : List Char) : Nat → List Char → List Char
  | _, [] => []
  | 0, s => s
  | fuel + 1, c :: cs =>
    if pat ≠ [] ∧ pat.isPrefixOf (c :: cs) then
      repl ++ replaceGo pat repl fuel (cs.drop (pat.length - 1))
    else
      c :: replaceGo pat repl fuel cs

/-- Python `s.replace(pat, repl)` (for non-empty `pat`). -/
def pyReplace (s pat repl : List Char) : List Char :=
  replaceGo pat repl s.length s

/-! ## `_compat.rectify_endpoints` -/

/-- `courier/services/ontodocker/_compat.py::rectify_endpoints`:
three successive global replacements applied to the raw response. -/
def rectify_endpoints (result : List Char) : List Char :=
  let r1 := pyReplace result "http:".data "https:".data
  let r2 := pyReplace r1 ":None/api/jena".data "/api/v1/jena".data
  pyReplace r2 ":443/api/jena".data "/api/v1/jena".data

/-- String-level wrapper for `rectify_endpoints`. -/
def rectifyEndpointsS (result : String) : String :=
  String.mk (rectify_endpoints result.data)

example : rectifyEndpointsS "http://x:None/api/jena/ds/sparql"
    = "https://x/api/v1/jena/ds/sparql" := by decide

/-! ## `urllib.parse.urlsplit` / `urlunsplit` -/

/-- The characters `urlsplit` strips from the left of a URL
(`_WHATWG_C0_CONTROL_OR_SPACE`): C0 controls and space. -/
def isC0OrSpace (c : Char) : Bool := c.val ≤ 32

/-- The characters `urlsplit` removes everywhere in a URL
(`_UNSAFE_URL_BYTES_TO_REMOVE`): tab, CR, LF. -/
def isUnsafeUrlByte (c : Char) : Bool := c = '\t' || c = '\r' || c = '\n'

/-- CPython `scheme_chars`: ASCII letters, digits, `+`, `-`, `.`. -/
def isSchemeChar (c : Char) : Bool :=
  c.isAlpha || c.isDigit || c = '+' || c = '-' || c = '.'

/-- A netloc/path delimiter (`/`, `?` or `#`), at which `_splitnetloc`
stops. -/
def isNetlocDelim (c : Char) : Bool := c = '/' || c = '?' || c = '#'

/-- Whether a list of characters starts with an ASCII letter (CPython's
`url[0].isascii() and url[0].isalpha()` guard on the scheme). -/
def headIsAsciiAlpha : List Char → Bool
  | [] => false
  | c :: _ => c.isAlpha

/-- Python's substring test `pat in s`. -/
def listContainsSub (s pat : List Char) : Bool :=
  match s with
  | [] => pat.isEmpty
  | _ :: tail => pat.isPrefixOf s || listContainsSub tail pat

deriving instance DecidableEq for Except

/-- Result of `urllib.parse.urlsplit`, field for field. -/
structure SplitResult where
  scheme : List Char
  netloc : List Char
  path : List Char
  query : List Char
  fragment : List Char
  deriving DecidableEq, Repr

/-- The scheme-splitting step of `urlsplit`: CPython takes
`i = url.find(':')` and accepts a scheme when `i > 0`, the first character
is an ASCII letter, and `url[:i]` consists of scheme characters; here the
text before the first `:` is the longest `:`-free prefix
`url.takeWhile (· ≠ ':')`, and `find` succeeding (`i ≥ 0`) is that prefix
being proper.  Accepted schemes are lower-cased and the `:` is dropped
from the remainder. -/
def splitScheme (url : List Char) : List Char × List Char :=
  let pre := url.takeWhile (· ≠ ':')
  if pre ≠ url ∧ pre ≠ [] ∧ headIsAsciiAlpha url = true
      ∧ pre.all isSchemeChar = true then
    (pre.map Char.toLower, url.drop (pre.length + 1))
  else ([], url)

/-- The netloc-splitting step of `urlsplit` (`_splitnetloc`): after `//`,
the netloc extends to the first `/`, `?` or `#`. -/
def splitNetloc (url : List Char) : List Char × List Char :=
  if url.take 2 = ['/', '/'] then
    ((url.drop 2).takeWhile (fun c => ¬ isNetlocDelim c),
     (url.drop 2).dropWhile (fun c => ¬ isNetlocDelim c))
  else ([], url)

/-- Python `url.split(ch, 1)` when `ch` occurs (else the unchanged pair
`(url, "")`): the part before the first `ch` and the part after it. -/
def splitAtChar (ch : Char) (url : List Char) : List Char × List Char :=
  let pre := url.takeWhile (· ≠ ch)
  if pre = url then (url, []) else (pre, url.drop (pre.length + 1))

/-- `urllib.parse.urlsplit(url)` (with `allow_fragments=True` and no default
scheme), per CPython: left-strip C0-controls/space, drop tab/CR/LF
everywhere, split off a scheme when the text before the first `:` starts
with an ASCII letter and consists of scheme characters (lower-casing it),
read a netloc after `//` up to the first `/?#`, then split off the fragment
at the first `#` and the query at the first `?` of what remains. -/
def urlsplitL (url0 : List Char) : SplitResult :=
  let url := (url0.dropWhile isC0OrSpace).filter (fun c => ¬ isUnsafeUrlByte c)
  let s1 := splitScheme url
  let s2 := splitNetloc s1.2
  let s3 := splitAtChar '#' s2.2
  let s4 := splitAtChar '?' s3.1
  ⟨s1.1, s2.1, s4.1, s4.2, s3.2⟩

/-- `urllib.parse.urlunsplit((scheme, netloc, path, query, fragment))`,
per CPython. -/
def urlunsplitL (scheme netloc path query fragment : List Char) : List Char :=
  let url :=
    if netloc ≠ [] ∨ (path ≠ [] ∧ path.take 2 = ['/', '/']) then
      '/' :: '/' :: netloc ++ (if path ≠ [] ∧ path.take 1 ≠ ['/'] then '/' :: path else path)
    else path
  let url := if scheme ≠ [] then scheme ++ ':' :: url else url
  let url := if query ≠ [] then url ++ '?' :: query else url
  if fragment ≠ [] then url ++ '#' :: fragment else url

example : urlsplitL "https://example.org:8080/".data
    = ⟨"https".data, "example.org:8080".data, "/".data, [], []⟩ := by decide
example : urlsplitL "https://ex.org /".data
    = ⟨"https".data, "ex.org ".data, "/".data, [], []⟩ := by decide
example : urlsplitL "1http://x".data = ⟨[], [], "1http://x".data, [], []⟩ := by decide
example : urlsplitL "HTTPS://Example.org".data
    = ⟨"https".data, "Example.org".data, [], [], []⟩ := by decide
example : urlsplitL "https://h/a?b#c?d".data
    = ⟨"https".data, "h".data, "/a".data, "b".data, "c?d".data⟩ := by decide

/-! ## `courier/http/url.py` -/

/-- The part of `courier/http/url.py::normalize_base_url` that follows
`parts = urlsplit(candidate)` — the scheme/host/host-only checks and the
rebuild via `urlunsplit` — factored into its own definition so that proofs
can reason over an arbitrary parse result. -/
def normPostParse (defaultScheme : String) (allowedSchemes : List String)
    (requireHostOnly : Bool) (parts : SplitResult) : Except PyError String :=
  let scheme :=
    (if parts.scheme = [] then defaultScheme.data else parts.scheme).map Char.toLower
  if ¬ allowedSchemes.contains (String.mk scheme) then
    .error (.invalidAddress "Unsupported URL scheme")
  else if parts.netloc = [] then
    .error (.invalidAddress
      "address must include a host (and optional port), e.g. 'example.org' or 'https://example.org'")
  else if requireHostOnly ∧
      (¬ (parts.path = [] ∨ parts.path = ['/']) ∨ parts.query ≠ [] ∨ parts.fragment ≠ []) then
    .error (.invalidAddress
      "address must be host[:port] only (no path/query/fragment). Example: 'https://example.org:8080'")
  else
    .ok (String.mk (urlunsplitL scheme parts.netloc [] [] []))

/-- `courier/http/url.py::normalize_base_url`.  Parameters are passed
positionally; `normalizeBaseUrlDefault` fixes the source defaults. -/
def normalize_base_url (address : String) (defaultScheme : String)
    (allowedSchemes : List String) (requireHostOnly : Bool) :
    Except PyError String :=
  if pyStrip address.data = [] then
    .error (.invalidAddress
      "address must be a non-empty host, e.g. 'ontodocker.example.org'")
  else
    let raw := pyStrip address.data
    let candidate :=
      if listContainsSub raw "://".data then raw else defaultScheme.data ++ "://".data ++ raw
    normPostParse defaultScheme allowedSchemes requireHostOnly (urlsplitL candidate)

/-- `normalize_base_url` with the source's default parameters
(`default_scheme="https"`, `allowed_schemes=("http","https")`,
`require_host_only=True`). -/
def normalizeBaseUrlDefault (address : String) : Except PyError String :=
  normalize_base_url address "https" ["http", "https"] true

example : normalizeBaseUrlDefault "example.org" = .ok "https://example.org" := by decide
example : normalizeBaseUrlDefault "https://example.org" = .ok "https://example.org" := by decide
example : normalizeBaseUrlDefault "example.org:8080/" = .ok "https://example.org:8080" := by decide
example : normalizeBaseUrlDefault "https://ex.org /" = .ok "https://ex.org " := by decide
example : normalizeBaseUrlDefault "https://ex.org " = .ok "https://ex.org" := by decide

/-- `courier/http/url.py::join_url`. -/
def join_url (base : String) (segments : List String) : Except PyError String :=
  if pyStrip base.data = [] then
    .error (.validationError "base must be a non-empty URL")
  else
    let base := pyRstripChar '/' base.data
    let cleaned := (segments.filter
        (fun s => s.data ≠ [] ∧ pyStripChar '/' s.data ≠ [])).map
      (fun s => pyStripChar '/' s.data)
    .ok (String.mk
      (base ++ (if cleaned ≠ [] then '/' :: (cleaned.intersperse "/".data).flatten else [])))

example : join_url "https://h/" ["api", "v1", "jena"] = .ok "https://h/api/v1/jena" := by decide
example : join_url "https://h" [] = .ok "https://h" := by decide
example : join_url "https://h" ["/a/", "", "//", "b"] = .ok "https://h/a/b" := by decide

/-! ## `_compat.extract_dataset_names` and `endpoints.EndpointsResource.list` -/

/-- The non-empty path segments of an endpoint URL, as
`extract_dataset_names` computes them:
`urlsplit(endpoint).path.rstrip("/")`, split on `/`, empty pieces
dropped. -/
def pathSegments (endpoint : String) : List String :=
  ((pySplitChar '/' (pyRstripChar '/' (urlsplitL endpoint.data).path)).map
      String.mk).filter (· ≠ "")

/-- The guard of `extract_dataset_names`: segments of length ≥ 5 whose
first three are `api, v1, jena` and whose last is `sparql`, or segments of
length ≥ 4 whose first three are `api, v1, jena`. -/
def expectedShape (segments : List String) : Prop :=
  (5 ≤ segments.length ∧ segments.take 3 = ["api", "v1", "jena"]
      ∧ segments.getLast? = some "sparql")
  ∨ (4 ≤ segments.length ∧ segments.take 3 = ["api", "v1", "jena"])

instance (segments : List String) : Decidable (expectedShape segments) := by
  unfold expectedShape; infer_instance

theorem expectedShape_length {segments : List String}
    (h : expectedShape segments) : 3 < segments.length := by
  rcases h with ⟨h5, -, -⟩ | ⟨h4, -⟩ <;> omega

/-- `courier/services/ontodocker/_compat.py::extract_dataset_names`:
one dataset name (path segment index 3) per endpoint whose segments match
`expectedShape`; a `ValueError` naming the first endpoint that does not,
with no partial output. -/
def extract_dataset_names : List String → Except PyError (List String)
  | [] => .ok []
  | endpoint :: rest =>
    let segments := pathSegments endpoint
    if h : expectedShape segments then
      match extract_dataset_names rest with
      | .ok names => .ok (segments.get ⟨3, expectedShape_length h⟩ :: names)
      | .error e => .error e
    else
      .error (.valueError ("Unexpected SPARQL endpoint format: " ++ endpoint))

example : extract_dataset_names
    ["https://h/api/v1/jena/ds1/sparql", "https://h/api/v1/jena/ds2"]
    = .ok ["ds1", "ds2"] := by decide
example : extract_dataset_names ["https://h/api/v2/jena/ds1/sparql"]
    = .error (.valueError
        "Unexpected SPARQL endpoint format: https://h/api/v2/jena/ds1/sparql") := by decide

/-- `courier/services/ontodocker/models.py::EndpointInfo`: a frozen
dataclass pairing a dataset name with its SPARQL endpoint URL. -/
structure EndpointInfo where
  dataset : String
  sparql_endpoint : String
  deriving DecidableEq, Repr

/-- `courier/services/ontodocker/endpoints.py::EndpointsResource.list`,
as a function of the raw endpoint URL list that `list_raw` returned:
extract the dataset names, then zip names with endpoints (in input order)
into `EndpointInfo` values.  `zip(..., strict=False)` truncates to the
shorter list, which `List.zip` also does. -/
def endpointsList (endpoints : List String) : Except PyError (List EndpointInfo) :=
  match extract_dataset_names endpoints with
  | .error e => .error e
  | .ok dataset_names =>
    .ok ((dataset_names.zip endpoints).map fun p => ⟨p.1, p.2⟩)

example : endpointsList ["https://h/api/v1/jena/ds1/sparql", "https://h/api/v1/jena/ds2"]
    = .ok [⟨"ds1", "https://h/api/v1/jena/ds1/sparql"⟩,
           ⟨"ds2", "https://h/api/v1/jena/ds2"⟩] := by decide

/-! ## `_compat.make_dataframe` and the pandas `DataFrame` constructor -/

/-- A SPARQL JSON result, as `make_dataframe` consumes it: the
`result["results"]["bindings"]` list, each binding an insertion-ordered
mapping from variable name to a value descriptor whose `"value"` field is
a string.  Bindings are modelled as association lists (Python 3 dicts
iterate in insertion order) and descriptors by their `"value"` field; the
`KeyError` paths for a missing `results`, `bindings` or `"value"` key are
outside the model (the typed structure makes them unrepresentable). -/
structure SparqlResult where
  bindings : List (List (String × String))
  deriving DecidableEq, Repr

/-- A pandas `DataFrame` as produced from a list of row lists: column
labels and a rectangular grid of optional cells (`none` is `NaN`). -/
structure DataFrame where
  columns : List String
  rows : List (List (Option String))
  deriving DecidableEq, Repr

/-- The width pandas infers for a list of row lists: the maximum row
length (`pandas._libs.lib.to_object_array` allocates `(n, max_len)`). -/
def pdInferredWidth (rows : List (List String)) : Nat :=
  (rows.map List.length).foldr max 0

/-- `pandas.DataFrame(rows, columns=columns)` for `rows` a list of row
lists of strings: an empty `rows` gives an empty frame with the given
columns; otherwise each row is padded with `NaN` to the maximum row width,
and a `ValueError` (`"N columns passed, passed data had M columns"`) is
raised iff `len(columns)` differs from that width. -/
def pdDataFrame (rows : List (List String)) (columns : List String) :
    Except PyError DataFrame :=
  if rows = [] then
    .ok ⟨columns, []⟩
  else
    let width := pdInferredWidth rows
    if columns.length ≠ width then
      .error (.valueError
        (toString columns.length ++ " columns passed, passed data had "
          ++ toString width ++ " columns"))
    else
      .ok ⟨columns, rows.map fun r =>
        r.map Option.some ++ List.replicate (width - r.length) Option.none⟩

/-- `courier/services/ontodocker/_compat.py::make_dataframe`: one row per
binding, reading each variable's `"value"` in the binding's own key order,
then `pd.DataFrame(rows, columns=columns)`. -/
def make_dataframe (result : SparqlResult) (columns : List String) :
    Except PyError DataFrame :=
  let rows := result.bindings.map (fun binding => binding.map Prod.snd)
  pdDataFrame rows columns

example : make_dataframe ⟨[[("s", "a"), ("p", "b")]]⟩ ["s", "p"]
    = .ok ⟨["s", "p"], [[some "a", some "b"]]⟩ := by decide
example : make_dataframe ⟨[[("s", "a"), ("p", "b")]]⟩ ["s", "p", "o"]
    = .error (.valueError "3 columns passed, passed data had 2 columns") := by decide
example : make_dataframe ⟨[[("s", "a"), ("p", "b")], [("s", "c")]]⟩ ["s", "p"]
    = .ok ⟨["s", "p"], [[some "a", some "b"], [some "c", none]]⟩ := by decide
example : make_dataframe ⟨[]⟩ ["s", "p", "o"] = .ok ⟨["s", "p", "o"], []⟩ := by decide

/-! ## `ast.literal_eval` (modelled subset) and `_compat.parse_endpoints_response` -/

/-- A Python literal value, for the subset of `ast.literal_eval` the
endpoints protocol exercises. -/
inductive PyLit where
  | pynone
  | pybool (b : Bool)
  | pyint (n : Int)
  | pystr (s : List Char)
  | pylist (xs : List PyLit)

/-- Whitespace the Python tokenizer skips between tokens of a
(bracketed) literal expression. -/
def pyWsChar (c : Char) : Bool :=
  c = ' ' || c = '\t' || c = '\n' || c = '\r' || c = '\x0c'

/-- A character that may continue a Python identifier (used to reject
e.g. `Nonex` after matching the keyword `None`). -/
def pyIdentChar (c : Char) : Bool :=
  c.isAlpha || c.isDigit || c = '_'

/-- Whether the input continues with an identifier character. -/
def headIsIdent : List Char → Bool
  | [] => false
  | c :: _ => pyIdentChar c

/-- Body of a Python string literal with quote character `q`: characters up
to the closing quote, decoding the common backslash escapes
(`\\ \' \" \n \t \r \a \b \f \v \0`); an unknown escape keeps the
backslash and the character, as CPython does; a raw newline or end of
input before the closing quote is a syntax error. -/
def parseStringLit (q : Char) : List Char → Except String (List Char × List Char)
  | [] => .error "unterminated string literal"
  | c :: cs =>
    if c = q then .ok ([], cs)
    else if c = '\n' then .error "EOL while scanning string literal"
    else if c = '\\' then
      match cs with
      | [] => .error "unterminated string literal"
      | e :: rest =>
        let decoded : List Char :=
          if e = 'n' then ['\n'] else if e = 't' then ['\t']
          else if e = 'r' then ['\r'] else if e = '\\' then ['\\']
          else if e = '\'' then ['\''] else if e = '"' then ['"']
          else if e = 'a' then [Char.ofNat 7] else if e = 'b' then [Char.ofNat 8]
          else if e = 'f' then [Char.ofNat 12] else if e = 'v' then [Char.ofNat 11]
          else if e = '0' then [Char.ofNat 0]
          else ['\\', e]
        match parseStringLit q rest with
        | .ok (s, r) => .ok (decoded ++ s, r)
        | .error m => .error m
    else
      match parseStringLit q cs with
      | .ok (s, r) => .ok (c :: s, r)
      | .error m => .error m

/-- A run of decimal-integer-literal characters (digits and underscores). -/
def isIntLitChar (c : Char) : Bool := c.isDigit || c = '_'

/-- Validity of a Python decimal integer literal body: non-empty, starts
and ends with a digit, and every underscore separates two digits. -/
def validIntBody : List Char → Bool
  | [] => false
  | [c] => c.isDigit
  | c :: c' :: rest => c.isDigit && (c' ≠ '_' || rest ≠ []) && validIntBody (c' :: rest)

/-- Numeric value of the digits of an integer literal (underscores
removed). -/
def digitsVal (ds : List Char) : Int :=
  (ds.filter Char.isDigit).foldl (fun a c => a * 10 + ((c.toNat : Int) - 48)) 0

/-- Parse an unsigned decimal integer literal at the head of the input. -/
def parseIntBody (s : List Char) : Except String (Int × List Char) :=
  let body := s.takeWhile isIntLitChar
  if validIntBody body then .ok (digitsVal body, s.dropWhile isIntLitChar)
  else .error "invalid decimal literal"

/-- Element list of a Python list literal, after the opening `[`:
comma-separated values parsed by `pv`, optional trailing comma, closed by
`]`.  Recursion is on the explicit `fuel` only, so that the kernel can
evaluate the parser. -/
def parseElemsWith (pv : List Char → Except String (PyLit × List Char)) :
    Nat → List Char → Except String (List PyLit × List Char)
  | 0 => fun _ => .error "recursion limit exceeded"
  | fuel + 1 => fun s =>
    match s.dropWhile pyWsChar with
    | ']' :: rest => .ok ([], rest)
    | s' =>
      match pv s' with
      | .error e => .error e
      | .ok (v, rest) =>
        match rest.dropWhile pyWsChar with
        | ']' :: r2 => .ok ([v], r2)
        | ',' :: r2 =>
          match parseElemsWith pv fuel r2 with
          | .ok (vs, r3) => .ok (v :: vs, r3)
          | .error e => .error e
        | _ => .error "invalid syntax"

/-- Parse one Python literal value at the head of the input: a string, a
list, a signed decimal integer, or one of `None`, `True`, `False`. -/
def parseVal : Nat → List Char → Except String (PyLit × List Char)
  | 0 => fun _ => .error "recursion limit exceeded"
  | fuel + 1 => fun s =>
    match s.dropWhile pyWsChar with
    | [] => .error "invalid syntax"
    | c :: cs =>
      if c = '\'' ∨ c = '"' then
        match parseStringLit c cs with
        | .ok (str, rest) => .ok (.pystr str, rest)
        | .error e => .error e
      else if c = '[' then
        match parseElemsWith (parseVal fuel) fuel cs with
        | .ok (elems, rest) => .ok (.pylist elems, rest)
        | .error e => .error e
      else if c = '-' ∨ c = '+' then
        match parseIntBody cs with
        | .ok (n, rest) => .ok (.pyint (if c = '-' then -n else n), rest)
        | .error e => .error e
      else if c.isDigit then
        match parseIntBody (c :: cs) with
        | .ok (n, rest) => .ok (.pyint n, rest)
        | .error e => .error e
      else if (c :: cs).take 4 = "None".data ∧ ¬ headIsIdent ((c :: cs).drop 4) then
        .ok (.pynone, (c :: cs).drop 4)
      else if (c :: cs).take 4 = "True".data ∧ ¬ headIsIdent ((c :: cs).drop 4) then
        .ok (.pybool true, (c :: cs).drop 4)
      else if (c :: cs).take 5 = "False".data ∧ ¬ headIsIdent ((c :: cs).drop 5) then
        .ok (.pybool false, (c :: cs).drop 5)
      else .error "malformed node or string"

/-- The modelled `ast.literal_eval`: parse one literal value and require
only trailing whitespace after it. -/
def pyLiteralEval (text : List Char) : Except String PyLit :=
  match parseVal (text.length + 1) text with
  | .error e => .error e
  | .ok (v, rest) =>
    if rest.dropWhile pyWsChar = [] then .ok v else .error "invalid syntax"

/-- `isinstance(value, list) and all(isinstance(x, str) for x in value)`,
returning the strings when the check passes. -/
def asStrList : PyLit → Option (List String)
  | .pylist xs =>
    xs.foldr
      (fun x acc =>
        match x, acc with
        | .pystr s, some l => some (String.mk s :: l)
        | _, _ => none)
      (some [])
  | _ => none

/-- `courier/services/ontodocker/_compat.py::parse_endpoints_response`:
optionally rectify, parse as a Python literal (`ValueError` on failure),
then require a `list` of `str` (`ValueError` otherwise). -/
def parse_endpoints_response (text : String) (rectify : Bool) :
    Except PyError (List String) :=
  let t := if rectify then rectify_endpoints text.data else text.data
  match pyLiteralEval t with
  | .error e =>
    .error (.valueError
      ("Failed to parse endpoints response as Python literal list: " ++ e))
  | .ok value =>
    match asStrList value with
    | some l => .ok l
    | none => .error (.valueError "Endpoints response did not parse to list[str].")

example : parse_endpoints_response
    "['https://h/api/v1/jena/ds1/sparql', 'https://h/api/v1/jena/ds2']" false
    = .ok ["https://h/api/v1/jena/ds1/sparql", "https://h/api/v1/jena/ds2"] := by decide
example : (parse_endpoints_response "[1, 'a']" false).isOk = false := by decide
example : (parse_endpoints_response "nonsense" false).isOk = false := by decide
example : parse_endpoints_response "\"ok\"" true = .error
    (.valueError "Endpoints response did not parse to list[str].") := by decide
example : parse_endpoints_response " ['a', 'b' , ] " false = .ok ["a", "b"] := by decide

/-! ## Claim theorems -/

/-- C1 (code_bug evidence): `make_dataframe` does not verify each binding's
value count against `len(columns)`.  On a result whose first binding has
two values and whose second has only one, with two columns, the code
returns a two-row frame whose missing cell pandas silently pads with
`NaN`, instead of failing with a shape-mismatch error as the claim (and
the spec's intended, tightened behavior) requires. -/
theorem make_dataframe_pads_short_binding :
    make_dataframe ⟨[[("a", "x"), ("b", "y")], [("a", "z")]]⟩ ["a", "b"]
      = .ok ⟨["a", "b"], [[some "x", some "y"], [some "z", none]]⟩ := by decide

/-- C10: on a result with an empty `results.bindings` list,
`make_dataframe` returns an empty table carrying the caller-supplied
column labels, without error, for every column list. -/
theorem make_dataframe_empty_bindings (result : SparqlResult)
    (columns : List String) (h : result.bindings = []) :
    make_dataframe result columns = .ok ⟨columns, []⟩ := by
  obtain ⟨b⟩ := result
  cases h
  rfl

/-- Witness for C10 at a concrete empty result and a three-label column
list. -/
theorem make_dataframe_empty_bindings_witness :
    make_dataframe ⟨[]⟩ ["s", "p", "o"] = .ok ⟨["s", "p", "o"], []⟩ :=
  make_dataframe_empty_bindings ⟨[]⟩ ["s", "p", "o"] rfl

/-- C6: `rectify_endpoints` is exactly the in-order composition of the
three global substitutions `http:` → `https:`, `:None/api/jena` →
`/api/v1/jena`, `:443/api/jena` → `/api/v1/jena`, and on
`"http://x:None/api/jena/ds/sparql"` it yields
`"https://x/api/v1/jena/ds/sparql"`. -/
theorem rectify_endpoints_three_substitutions :
    (∀ s : String, rectifyEndpointsS s = String.mk
      (pyReplace
        (pyReplace (pyReplace s.data "http:".data "https:".data)
          ":None/api/jena".data "/api/v1/jena".data)
        ":443/api/jena".data "/api/v1/jena".data))
    ∧ rectifyEndpointsS "http://x:None/api/jena/ds/sparql"
        = "https://x/api/v1/jena/ds/sparql" :=
  ⟨fun _ => rfl, by decide⟩

/-- Claim-side segment cleaning (C7's wording): strip leading/trailing
slashes from each segment, then drop segments that became empty. -/
def strippedSegments (segments : List String) : List (List Char) :=
  (segments.map (fun s => pyStripChar '/' s.data)).filter (· ≠ [])

/-- Claim-side description of `join_url`'s successful result (C7's
wording): slash-stripped base, unchanged when no segments survive,
otherwise followed by the surviving segments with exactly one `/` between
base and each segment. -/
def joinUrlSpec (base : String) (segments : List String) : String :=
  let b := pyRstripChar '/' base.data
  let cleaned := strippedSegments segments
  if cleaned = [] then String.mk b
  else String.mk (b ++ '/' :: List.intercalate "/".data cleaned)

theorem pyStripChar_nil (ch : Char) : pyStripChar ch [] = [] := rfl

theorem join_url_cleaned_eq (segments : List String) :
    (segments.filter (fun s => s.data ≠ [] ∧ pyStripChar '/' s.data ≠ [])).map
      (fun s => pyStripChar '/' s.data) = strippedSegments segments := by
  induction segments with
  | nil => rfl
  | cons s rest ih =>
    by_cases h : pyStripChar '/' s.data = []
    · have hcond : ¬ (s.data ≠ [] ∧ pyStripChar '/' s.data ≠ []) := by tauto
      simp only [strippedSegments, List.map_cons, List.filter_cons] at *
      simp only [h, hcond]
      simp only [decide_not]
      simp [h]
      simpa using ih
    · have hd : s.data ≠ [] := by
        intro hnil
        exact h (by rw [hnil]; rfl)
      simp only [strippedSegments, List.map_cons, List.filter_cons] at *
      simp [h, hd]
      simpa using ih

theorem intersperse_flatten_eq_intercalate (sep : List Char) (xs : List (List Char)) :
    (xs.intersperse sep).flatten = List.intercalate sep xs := rfl

/-- C7: `join_url` fails with `ValidationError` exactly when the base is
blank; otherwise it returns the slash-stripped base joined to the
surviving slash-stripped segments with exactly one `/` each (the base
unchanged when no segment survives); and the two concrete examples
evaluate as claimed. -/
theorem join_url_spec (base : String) (segments : List String) :
    (join_url base segments = .error (.validationError "base must be a non-empty URL")
      ↔ pyStrip base.data = [])
    ∧ (pyStrip base.data ≠ [] → join_url base segments = .ok (joinUrlSpec base segments))
    ∧ join_url "https://h/" ["api", "v1", "jena"] = .ok "https://h/api/v1/jena"
    ∧ join_url "https://h" [] = .ok "https://h" := by
  refine ⟨?_, ?_, by decide, by decide⟩
  · unfold join_url
    by_cases h : pyStrip base.data = [] <;> simp [h]
  · intro h
    simp only [join_url, joinUrlSpec, if_neg h]
    rw [join_url_cleaned_eq]
    by_cases hc : strippedSegments segments = [] <;>
      simp [hc, List.intercalate]

/-- Witness for C7 on a concrete base and segment list. -/
theorem join_url_spec_witness :
    join_url "https://h/x" ["a"] = .ok "https://h/x/a" := by
  have h := (join_url_spec "https://h/x" ["a"]).2.1 (by decide)
  rw [h]; decide

/-- C2: `extract_dataset_names` is order-preserving with one output per
input — every endpoint whose non-empty path segments have length ≥ 5 with
first three `api, v1, jena` and last `sparql`, or length ≥ 4 with first
three `api, v1, jena` (the `expectedShape` guard), contributes segment
index 3 — and if any endpoint matches neither shape the whole call fails
with a `ValueError` naming such an endpoint, producing no partial
output. -/
theorem extract_dataset_names_spec (endpoints : List String) :
    ((∀ e ∈ endpoints, expectedShape (pathSegments e)) →
      extract_dataset_names endpoints
        = .ok (endpoints.map (fun e => (pathSegments e).getD 3 "")))
    ∧ ((∃ e ∈ endpoints, ¬ expectedShape (pathSegments e)) →
      ∃ e ∈ endpoints, ¬ expectedShape (pathSegments e) ∧
        extract_dataset_names endpoints
          = .error (.valueError ("Unexpected SPARQL endpoint format: " ++ e))) := by
  induction endpoints with
  | nil =>
    constructor
    · intro _
      rfl
    · rintro ⟨e, he, -⟩
      exact absurd he (List.not_mem_nil e)
  | cons e rest ih =>
    constructor
    · intro hall
      have he : expectedShape (pathSegments e) := hall e (List.mem_cons_self e rest)
      have hrest := ih.1 (fun x hx => hall x (List.mem_cons_of_mem e hx))
      simp only [extract_dataset_names, dif_pos he, hrest, List.map_cons]
      have h3 : 3 < (pathSegments e).length := expectedShape_length he
      simp [List.getD_eq_getElem?_getD, List.getElem?_eq_getElem h3]
    · rintro ⟨b, hb, hbad⟩
      rcases List.mem_cons.mp hb with rfl | hbtail
      · refine ⟨b, List.mem_cons_self b rest, hbad, ?_⟩
        simp only [extract_dataset_names, dif_neg hbad]
      · by_cases he : expectedShape (pathSegments e)
        · obtain ⟨e', he', hbad', herr⟩ := ih.2 ⟨b, hbtail, hbad⟩
          refine ⟨e', List.mem_cons_of_mem e he', hbad', ?_⟩
          simp only [extract_dataset_names, dif_pos he, herr]
        · refine ⟨e, List.mem_cons_self e rest, he, ?_⟩
          simp only [extract_dataset_names, dif_neg he]

/-- Witness for C2 at the spec's concrete endpoint list. -/
theorem extract_dataset_names_spec_witness :
    extract_dataset_names
      ["https://h/api/v1/jena/ds1/sparql", "https://h/api/v1/jena/ds2"]
      = .ok ["ds1", "ds2"] := by
  have h := (extract_dataset_names_spec
    ["https://h/api/v1/jena/ds1/sparql", "https://h/api/v1/jena/ds2"]).1 (by decide)
  rw [h]; decide

theorem pathSegments_ne_empty (e : String) : ∀ x ∈ pathSegments e, x ≠ "" := by
  intro x hx
  unfold pathSegments at hx
  exact of_decide_eq_true (List.mem_filter.mp hx).2

set_option maxHeartbeats 1600000 in
theorem extract_dataset_names_ok {endpoints names : List String}
    (h : extract_dataset_names endpoints = .ok names) :
    names.length = endpoints.length ∧ ∀ n ∈ names, n ≠ "" := by
  induction endpoints generalizing names with
  | nil =>
    simp only [extract_dataset_names, Except.ok.injEq] at h
    subst h
    simp
  | cons e rest ih =>
    simp only [extract_dataset_names] at h
    split at h
    · cases hr : extract_dataset_names rest with
      | ok ns =>
        rw [hr] at h
        simp only [Except.ok.injEq] at h
        subst h
        obtain ⟨hlen, hne⟩ := ih hr
        refine ⟨by simp [hlen], ?_⟩
        intro n hn
        rcases List.mem_cons.mp hn with rfl | hn'
        · exact pathSegments_ne_empty e _ (List.get_mem _ _ _)
        · exact hne n hn'
      | error err =>
        rw [hr] at h
        exact absurd h (by simp)
    · exact absurd h (by simp)

/-- C8 counterexample: `Endpoints.list` can produce an `EndpointInfo`
whose dataset name is whitespace-only — non-empty as a raw string, but
empty after trimming — refuting "non-empty even after trimming
whitespace". -/
theorem endpoints_list_whitespace_dataset :
    endpointsList ["https://h/api/v1/jena/ /sparql"]
      = .ok [⟨" ", "https://h/api/v1/jena/ /sparql"⟩]
    ∧ pyStrip " ".data = [] :=
  ⟨by decide, by decide⟩

/-- C8 amended: every `EndpointInfo` produced by `Endpoints.list` pairs a
non-empty (though possibly whitespace-only) dataset name with the source
endpoint URL it was extracted from, and the returned list preserves the
input order of the raw endpoint list, one `EndpointInfo` per raw
endpoint. -/
theorem endpoints_list_amended (endpoints : List String)
    (out : List EndpointInfo) (h : endpointsList endpoints = .ok out) :
    out.map EndpointInfo.sparql_endpoint = endpoints
    ∧ ∀ info ∈ out, info.dataset ≠ "" := by
  unfold endpointsList at h
  cases hr : extract_dataset_names endpoints with
  | error err =>
    rw [hr] at h
    exact absurd h (by simp)
  | ok names =>
    rw [hr] at h
    simp only [Except.ok.injEq] at h
    obtain ⟨hlen, hne⟩ := extract_dataset_names_ok hr
    subst h
    constructor
    · rw [List.map_map]
      have : (EndpointInfo.sparql_endpoint ∘ fun p : String × String => ⟨p.1, p.2⟩)
          = Prod.snd := rfl
      rw [this]
      exact List.map_snd_zip names endpoints (le_of_eq hlen.symm)
    · intro info hinfo
      obtain ⟨p, hp, hpi⟩ := List.mem_map.mp hinfo
      have := (List.of_mem_zip hp).1
      rw [← hpi]
      exact hne p.1 this

/-- Witness for the amended C8 at a concrete endpoint list. -/
theorem endpoints_list_amended_witness :
    [(⟨"ds1", "https://h/api/v1/jena/ds1/sparql"⟩ : EndpointInfo)].map
        EndpointInfo.sparql_endpoint = ["https://h/api/v1/jena/ds1/sparql"]
    ∧ ∀ info ∈ [(⟨"ds1", "https://h/api/v1/jena/ds1/sparql"⟩ : EndpointInfo)],
        info.dataset ≠ "" :=
  endpoints_list_amended ["https://h/api/v1/jena/ds1/sparql"]
    [⟨"ds1", "https://h/api/v1/jena/ds1/sparql"⟩] (by decide)

/-- C5: `parse_endpoints_response` fails exactly when the (possibly
rectified) text cannot be parsed as a literal or when the parsed value is
not a list of strings; every failure is the data-format kind
(`ValueError`, a constructor distinct from the HTTP-transport
`HttpError`); on success it returns the parsed list of strings; and the
spec's concrete example parses as claimed. -/
theorem parse_endpoints_response_spec (text : String) (rectify : Bool) :
    (∀ l, parse_endpoints_response text rectify = .ok l →
      ∃ v, pyLiteralEval (if rectify then rectify_endpoints text.data else text.data)
          = .ok v ∧ asStrList v = some l)
    ∧ ((∃ e, parse_endpoints_response text rectify = .error e) ↔
        ((pyLiteralEval (if rectify then rectify_endpoints text.data else text.data)).isOk
            = false
          ∨ ∃ v, pyLiteralEval (if rectify then rectify_endpoints text.data else text.data)
              = .ok v ∧ asStrList v = none))
    ∧ (∀ e, parse_endpoints_response text rectify = .error e → ∃ m, e = .valueError m)
    ∧ parse_endpoints_response
        "['https://h/api/v1/jena/ds1/sparql', 'https://h/api/v1/jena/ds2']" false
        = .ok ["https://h/api/v1/jena/ds1/sparql", "https://h/api/v1/jena/ds2"] := by
  refine ⟨?_, ⟨?_, ?_⟩, ?_, by decide⟩
  · intro l h
    simp only [parse_endpoints_response] at h
    cases hl : pyLiteralEval (if rectify then rectify_endpoints text.data else text.data) with
    | error e =>
      simp only [hl] at h
      exact absurd h (by simp)
    | ok v =>
      simp only [hl] at h
      cases hs : asStrList v with
      | none =>
        simp only [hs] at h
        exact absurd h (by simp)
      | some l' =>
        simp only [hs, Except.ok.injEq] at h
        exact ⟨v, rfl, by rw [hs, h]⟩
  · rintro ⟨e, he⟩
    simp only [parse_endpoints_response] at he
    cases hl : pyLiteralEval (if rectify then rectify_endpoints text.data else text.data) with
    | error m => left; rfl
    | ok v =>
      simp only [hl] at he
      cases hs : asStrList v with
      | none => right; exact ⟨v, rfl, hs⟩
      | some l' =>
        simp only [hs] at he
        exact absurd he (by simp)
  · rintro (hbad | ⟨v, hv, hs⟩)
    · cases hl : pyLiteralEval (if rectify then rectify_endpoints text.data else text.data) with
      | error m =>
        refine ⟨.valueError
          ("Failed to parse endpoints response as Python literal list: " ++ m), ?_⟩
        simp only [parse_endpoints_response, hl]
      | ok v => rw [hl] at hbad; simp [Except.isOk, Except.toBool] at hbad
    · refine ⟨.valueError "Endpoints response did not parse to list[str].", ?_⟩
      simp only [parse_endpoints_response, hv, hs]
  · intro e he
    simp only [parse_endpoints_response] at he
    cases hl : pyLiteralEval (if rectify then rectify_endpoints text.data else text.data) with
    | error m =>
      simp only [hl, Except.error.injEq] at he
      exact ⟨_, he.symm⟩
    | ok v =>
      simp only [hl] at he
      cases hs : asStrList v with
      | none =>
        simp only [hs, Except.error.injEq] at he
        exact ⟨_, he.symm⟩
      | some l' =>
        simp only [hs] at he
        exact absurd he (by simp)

/-- Witness for C5: the success conjunct applied at the spec's concrete
input, exhibiting the parsed literal value. -/
theorem parse_endpoints_response_spec_witness :
    ∃ v, pyLiteralEval
        "['https://h/api/v1/jena/ds1/sparql', 'https://h/api/v1/jena/ds2']".data
        = .ok v
      ∧ asStrList v
        = some ["https://h/api/v1/jena/ds1/sparql", "https://h/api/v1/jena/ds2"] :=
  (parse_endpoints_response_spec
    "['https://h/api/v1/jena/ds1/sparql', 'https://h/api/v1/jena/ds2']" false).1
    ["https://h/api/v1/jena/ds1/sparql", "https://h/api/v1/jena/ds2"] (by decide)

/-- The candidate URL `normalize_base_url` parses under the default
parameters: the stripped address, prefixed with `https://` when it
contains no `://`. -/
def normCandidate (address : String) : List Char :=
  if listContainsSub (pyStrip address.data) "://".data then pyStrip address.data
  else "https".data ++ "://".data ++ pyStrip address.data

/-- C4 counterexample: `normalize("example.org:8080/")` does not fail with
`InvalidAddress` — it succeeds, because the trailing slash parses as the
root path `/`, which the host-only check accepts. -/
theorem normalize_trailing_slash_accepted :
    normalizeBaseUrlDefault "example.org:8080/" = .ok "https://example.org:8080" := by
  decide

/-- C4 amended: `normalize("example.org:8080/")` succeeds with
`"https://example.org:8080"` (the trailing slash parses as the root path);
in general a non-blank address is handed to the post-parse stage of
`normalize_base_url`, and once the scheme and host checks pass there, a
parse result whose path is empty or exactly `/` with no query and no
fragment is accepted while any other path, a query, or a fragment is
rejected with `InvalidAddress`; in particular
`normalize("https://example.org/foo")` fails with `InvalidAddress`. -/
theorem normalize_host_only_amended :
    normalizeBaseUrlDefault "example.org:8080/" = .ok "https://example.org:8080"
    ∧ (∀ address : String, pyStrip address.data ≠ [] →
        normalizeBaseUrlDefault address
          = normPostParse "https" ["http", "https"] true (urlsplitL (normCandidate address)))
    ∧ (∀ parts : SplitResult,
        (["http", "https"] : List String).contains
          (String.mk ((if parts.scheme = [] then "https".data else parts.scheme).map
            Char.toLower)) = true →
        parts.netloc ≠ [] →
        (((parts.path = [] ∨ parts.path = ['/'])
            ∧ parts.query = [] ∧ parts.fragment = []) →
          normPostParse "https" ["http", "https"] true parts
            = .ok (String.mk (urlunsplitL
                ((if parts.scheme = [] then "https".data else parts.scheme).map Char.toLower)
                parts.netloc [] [] [])))
        ∧ (¬ ((parts.path = [] ∨ parts.path = ['/'])
            ∧ parts.query = [] ∧ parts.fragment = []) →
          normPostParse "https" ["http", "https"] true parts
            = .error (.invalidAddress
              "address must be host[:port] only (no path/query/fragment). Example: 'https://example.org:8080'")))
    ∧ normalizeBaseUrlDefault "https://example.org/foo" = .error (.invalidAddress
        "address must be host[:port] only (no path/query/fragment). Example: 'https://example.org:8080'") := by
  refine ⟨by decide, ?_, ?_, by decide⟩
  · intro address hne
    simp only [normalizeBaseUrlDefault, normalize_base_url, normCandidate]
    rw [if_neg hne]
  · intro parts hsch hnet
    constructor <;> intro hcond <;>
    · simp only [normPostParse]
      rw [if_neg (not_not_intro hsch), if_neg hnet]
      split
      all_goals first
        | rfl
        | (rename_i hc
           exfalso
           rcases hc with ⟨-, h | h | h⟩
           · exact h hcond.1
           · exact h hcond.2.1
           · exact h hcond.2.2)
        | (rename_i hc
           exact absurd ⟨trivial, by
             have h3 : ∀ A B C : Prop, ¬ (A ∧ B ∧ C) → ¬ A ∨ ¬ B ∨ ¬ C := by tauto
             exact h3 _ _ _ hcond⟩ hc)

/-- Witness for the amended C4: the post-parse characterization applied at
the concrete parse result of `"https://example.org:8080/"`. -/
theorem normalize_host_only_amended_witness :
    normPostParse "https" ["http", "https"] true
        ⟨"https".data, "example.org:8080".data, ['/'], [], []⟩
      = .ok "https://example.org:8080" := by
  have h := ((normalize_host_only_amended.2.2.1
    ⟨"https".data, "example.org:8080".data, ['/'], [], []⟩) (by decide) (by decide)).1
    ⟨Or.inr rfl, rfl, rfl⟩
  rw [h]; decide

theorem splitScheme_snd_sublist (url : List Char) : (splitScheme url).2.Sublist url := by
  simp only [splitScheme]
  split
  · exact List.drop_sublist _ _
  · exact List.Sublist.refl _

theorem splitNetloc_fst_mem {url : List Char} {c : Char}
    (hc : c ∈ (splitNetloc url).1) : isNetlocDelim c = false ∧ c ∈ url := by
  unfold splitNetloc at hc
  split at hc
  · refine ⟨by simpa using List.mem_takeWhile_imp hc, ?_⟩
    exact (List.drop_sublist 2 url).subset ((List.takeWhile_prefix _).sublist.subset hc)
  · exact absurd hc (List.not_mem_nil c)

theorem urlsplitL_netloc_props (s : List Char) :
    ∀ c ∈ (urlsplitL s).netloc, isNetlocDelim c = false ∧ isUnsafeUrlByte c = false := by
  intro c hc
  simp only [urlsplitL] at hc
  obtain ⟨hd, hmem⟩ := splitNetloc_fst_mem hc
  refine ⟨hd, ?_⟩
  have h2 := (splitScheme_snd_sublist _).subset hmem
  have h3 := List.mem_filter.mp h2
  simpa using h3.2

theorem urlunsplitL_host {scheme netloc : List Char} (hs : scheme ≠ []) (hn : netloc ≠ []) :
    urlunsplitL scheme netloc [] [] [] = scheme ++ ':' :: '/' :: '/' :: netloc := by
  simp [urlunsplitL, hs, hn]

theorem normPostParse_ok_shape {parts : SplitResult} {u : String}
    (h : normPostParse "https" ["http", "https"] true parts = .ok u) :
    parts.netloc ≠ []
    ∧ (u.data = "http".data ++ ':' :: '/' :: '/' :: parts.netloc
        ∨ u.data = "https".data ++ ':' :: '/' :: '/' :: parts.netloc) := by
  simp only [normPostParse] at h
  generalize hgen : List.map Char.toLower
    (if parts.scheme = [] then "https".data else parts.scheme) = scheme at h
  split at h
  · exact absurd h (by simp)
  · rename_i hsc
    split at h
    · exact absurd h (by simp)
    · rename_i hnet
      split at h
      · exact absurd h (by simp)
      · have hcontains : (["http", "https"] : List String).contains (String.mk scheme)
            = true := not_not.mp hsc
        have hmem : String.mk scheme = "http" ∨ String.mk scheme = "https" := by
          simpa using hcontains
        have hcases : scheme = "http".data ∨ scheme = "https".data := by
          rcases hmem with hm | hm
          · exact Or.inl (congrArg String.data hm)
          · exact Or.inr (congrArg String.data hm)
        have hsne : scheme ≠ [] := by
          rcases hcases with hc | hc <;> simp [hc]
        rw [urlunsplitL_host hsne hnet] at h
        simp only [Except.ok.injEq] at h
        refine ⟨hnet, ?_⟩
        rcases hcases with hc | hc
        · left
          rw [← h, hc]
        · right
          rw [← h, hc]

theorem normalize_stage {address : String} (hne : pyStrip address.data ≠ []) :
    normalizeBaseUrlDefault address
      = normPostParse "https" ["http", "https"] true (urlsplitL (normCandidate address)) := by
  simp only [normalizeBaseUrlDefault, normalize_base_url, normCandidate]
  rw [if_neg hne]

theorem normalizeBaseUrlDefault_ok_netloc {address u : String}
    (h : normalizeBaseUrlDefault address = .ok u) :
    ∃ netloc : List Char, netloc ≠ []
      ∧ (∀ c ∈ netloc, isNetlocDelim c = false ∧ isUnsafeUrlByte c = false)
      ∧ (u.data = "http".data ++ ':' :: '/' :: '/' :: netloc
          ∨ u.data = "https".data ++ ':' :: '/' :: '/' :: netloc) := by
  have hne : pyStrip address.data ≠ [] := by
    intro h0
    rw [normalizeBaseUrlDefault, normalize_base_url, if_pos h0] at h
    exact absurd h (by simp)
  rw [normalize_stage hne] at h
  obtain ⟨hn, hcases⟩ := normPostParse_ok_shape h
  exact ⟨_, hn, urlsplitL_netloc_props _, hcases⟩

theorem listContainsSub_scheme (pre post : List Char) :
    listContainsSub (pre ++ ':' :: '/' :: '/' :: post) "://".data = true := by
  induction pre with
  | nil => simp [listContainsSub, List.isPrefixOf]
  | cons c cs ih => simp [listContainsSub, ih]

theorem urlsplitL_canonical {netloc : List Char}
    (hn : ∀ c ∈ netloc, isNetlocDelim c = false ∧ isUnsafeUrlByte c = false)
    {scheme : List Char} (hs : scheme = "http".data ∨ scheme = "https".data) :
    urlsplitL (scheme ++ ':' :: '/' :: '/' :: netloc) = ⟨scheme, netloc, [], [], []⟩ := by
  have hfilter : netloc.filter (fun c => !isUnsafeUrlByte c) = netloc :=
    List.filter_eq_self.mpr (fun c hc => by simp [(hn c hc).2])
  have htake : netloc.takeWhile (fun c => !isNetlocDelim c) = netloc :=
    List.takeWhile_eq_self_iff.mpr (fun c hc => by simp [(hn c hc).1])
  have hdrop : netloc.dropWhile (fun c => !isNetlocDelim c) = [] :=
    List.dropWhile_eq_nil_iff.mpr (fun c hc => by simp [(hn c hc).1])
  rcases hs with rfl | rfl <;>
  · simp only [urlsplitL, splitScheme, splitNetloc, splitAtChar, List.cons_append,
      List.nil_append]
    simp +decide [List.dropWhile_cons, List.filter_cons, List.takeWhile_cons,
      headIsAsciiAlpha, hfilter, htake, hdrop]

theorem normPostParse_canonical {netloc scheme : List Char} (hne : netloc ≠ [])
    (hs : scheme = "http".data ∨ scheme = "https".data) :
    normPostParse "https" ["http", "https"] true ⟨scheme, netloc, [], [], []⟩
      = .ok (String.mk (scheme ++ ':' :: '/' :: '/' :: netloc)) := by
  have hmap1 : List.map Char.toLower "http".data = "http".data := by decide
  have hmap2 : List.map Char.toLower "https".data = "https".data := by decide
  rcases hs with rfl | rfl <;>
  · simp +decide [normPostParse, urlunsplitL, hne, hmap1, hmap2]

theorem normalize_canonical_fixed {netloc scheme : List Char} (hne : netloc ≠ [])
    (hn : ∀ c ∈ netloc, isNetlocDelim c = false ∧ isUnsafeUrlByte c = false)
    (hs : scheme = "http".data ∨ scheme = "https".data)
    (hstrip : pyStrip (scheme ++ ':' :: '/' :: '/' :: netloc)
        = scheme ++ ':' :: '/' :: '/' :: netloc) :
    normalizeBaseUrlDefault (String.mk (scheme ++ ':' :: '/' :: '/' :: netloc))
      = .ok (String.mk (scheme ++ ':' :: '/' :: '/' :: netloc)) := by
  have hne2 : pyStrip (String.mk (scheme ++ ':' :: '/' :: '/' :: netloc)).data ≠ [] := by
    show pyStrip (scheme ++ ':' :: '/' :: '/' :: netloc) ≠ []
    rw [hstrip]
    rcases hs with rfl | rfl <;> simp
  rw [normalize_stage hne2]
  have hcand : normCandidate (String.mk (scheme ++ ':' :: '/' :: '/' :: netloc))
      = scheme ++ ':' :: '/' :: '/' :: netloc := by
    show (if listContainsSub (pyStrip (scheme ++ ':' :: '/' :: '/' :: netloc)) "://".data
          then pyStrip (scheme ++ ':' :: '/' :: '/' :: netloc)
          else "https".data ++ "://".data ++ pyStrip (scheme ++ ':' :: '/' :: '/' :: netloc))
        = scheme ++ ':' :: '/' :: '/' :: netloc
    rw [hstrip, if_pos (listContainsSub_scheme scheme netloc)]
  rw [hcand, urlsplitL_canonical hn hs, normPostParse_canonical hne hs]

/-- C3 counterexample: normalization is not idempotent on the code as
written.  The address `"https://ex.org /"` succeeds (the space survives in
the netloc and the trailing slash is an accepted root path), producing
`"https://ex.org "`; normalizing that output strips the trailing space
first, producing the different value `"https://ex.org"`. -/
theorem normalize_not_idempotent :
    normalizeBaseUrlDefault "https://ex.org /" = .ok "https://ex.org "
    ∧ normalizeBaseUrlDefault "https://ex.org " = .ok "https://ex.org"
    ∧ ("https://ex.org " : String) ≠ "https://ex.org" :=
  ⟨by decide, by decide, by decide⟩

/-- C3 amended: normalization is idempotent on every address whose output
is unchanged by `str.strip()` (no leading/trailing whitespace — all
outputs except those with whitespace at the edge of the authority):
re-normalizing such an output yields it back; and in particular
`normalize("example.org")`, `normalize("https://example.org")` and the
constant `"https://example.org"` are all equal. -/
theorem normalize_idempotent_amended :
    (∀ address u : String, normalizeBaseUrlDefault address = .ok u →
      pyStrip u.data = u.data → normalizeBaseUrlDefault u = .ok u)
    ∧ normalizeBaseUrlDefault "example.org" = .ok "https://example.org"
    ∧ normalizeBaseUrlDefault "https://example.org" = .ok "https://example.org" := by
  refine ⟨?_, by decide, by decide⟩
  intro address u hok hstrip
  obtain ⟨netloc, hne, hn, hcases⟩ := normalizeBaseUrlDefault_ok_netloc hok
  have hu : u = String.mk u.data := rfl
  rcases hcases with hdata | hdata
  · rw [hu, hdata]
    exact normalize_canonical_fixed hne hn (Or.inl rfl) (by rw [← hdata]; exact hstrip)
  · rw [hu, hdata]
    exact normalize_canonical_fixed hne hn (Or.inr rfl) (by rw [← hdata]; exact hstrip)

/-- Witness for the amended C3: idempotence applied at
`normalize("example.org") = "https://example.org"`. -/
theorem normalize_idempotent_amended_witness :
    normalizeBaseUrlDefault "https://example.org" = .ok "https://example.org" :=
  normalize_idempotent_amended.1 "example.org" "https://example.org" (by decide) (by decide)

theorem replaceGo_fuel_irrel (pat repl : List Char) :
    ∀ f g s, s.length ≤ f → s.length ≤ g →
      replaceGo pat repl f s = replaceGo pat repl g s := by
  intro f
  induction f with
  | zero =>
    intro g s hf _
    have : s = [] := List.length_eq_zero.mp (Nat.le_zero.mp hf)
    subst this
    cases g <;> rfl
  | succ f ih =>
    intro g s hf hg
    cases s with
    | nil => cases g <;> rfl
    | cons c cs =>
      cases g with
      | zero => exact absurd hg (by simp)
      | succ g =>
        simp only [replaceGo]
        split
        · have h1 : (cs.drop (pat.length - 1)).length ≤ f := by
            have := List.length_drop (pat.length - 1) cs
            simp only [List.length_cons] at hf
            omega
          have h2 : (cs.drop (pat.length - 1)).length ≤ g := by
            have := List.length_drop (pat.length - 1) cs
            simp only [List.length_cons] at hg
            omega
          rw [ih g _ h1 h2]
        · have h1 : cs.length ≤ f := by
            simp only [List.length_cons] at hf
            omega
          have h2 : cs.length ≤ g := by
            simp only [List.length_cons] at hg
            omega
          rw [ih g cs h1 h2]

theorem infix_cons_cases {p : List Char} {c : Char} {X : List Char}
    (h : p <:+: c :: X) : p <+: c :: X ∨ p <:+: X := by
  obtain ⟨s, t, hst⟩ := h
  cases s with
  | nil =>
    left
    exact ⟨t, by simpa using hst⟩
  | cons d ds =>
    right
    refine ⟨ds, t, ?_⟩
    have h2 : d :: (ds ++ p ++ t) = c :: X := by simpa using hst
    exact congrArg List.tail h2

theorem prefix_append_split {u a b : List Char} (h : u <+: a ++ b) :
    u <+: a ∨ a <+: u := by
  by_cases hl : u.length ≤ a.length
  · left
    exact (List.isPrefix_append_of_length hl).mp h
  · right
    have h1 : u.take a.length <+: (a ++ b).take a.length := h.take a.length
    rw [List.take_left] at h1
    have h2 : (u.take a.length).length = a.length := by
      simp only [List.length_take]
      omega
    have h3 : u.take a.length = a := h1.eq_of_length h2
    rw [← h3]
    exact List.take_prefix _ _

theorem infix_append_cases {pat a b : List Char} (h : pat <:+: a ++ b) :
    pat <:+: a ∨ pat <:+: b
      ∨ ∃ k, 0 < k ∧ k < pat.length ∧ pat.take k <:+ a ∧ pat.drop k <+: b := by
  obtain ⟨s, t, hst⟩ := h
  have hdrop : pat ++ t = (a ++ b).drop s.length := by
    rw [← hst, List.append_assoc, List.drop_left]
  by_cases h1 : s.length + pat.length ≤ a.length
  · left
    have h2 : s.length ≤ a.length := by omega
    have h4 : pat ++ t = a.drop s.length ++ b := by
      rw [hdrop, List.drop_append_of_le_length h2]
    have h5 : pat = (a.drop s.length).take pat.length := by
      have h6 := congrArg (List.take pat.length) h4
      rw [List.take_left' rfl] at h6
      rw [List.take_append_of_le_length (by simp only [List.length_drop]; omega)] at h6
      exact h6
    rw [h5]
    exact List.infix_iff_prefix_suffix.mpr
      ⟨a.drop s.length, List.take_prefix _ _, List.drop_suffix _ _⟩
  · by_cases h2 : a.length ≤ s.length
    · right; left
      have h3 : (a ++ b).drop s.length = b.drop (s.length - a.length) := by
        have h3a : (a ++ b).drop s.length
            = ((a ++ b).drop a.length).drop (s.length - a.length) := by
          rw [List.drop_drop]
          congr 1
          omega
        rw [h3a, List.drop_left]
      have h4 : pat ++ t = b.drop (s.length - a.length) := by rw [hdrop, h3]
      exact List.infix_iff_prefix_suffix.mpr
        ⟨b.drop (s.length - a.length), ⟨t, h4⟩, List.drop_suffix _ _⟩
    · right; right
      have hsle : s.length ≤ a.length := by omega
      have h4 : pat ++ t = a.drop s.length ++ b := by
        rw [hdrop, List.drop_append_of_le_length hsle]
      have hklen : (a.drop s.length).length = a.length - s.length := by
        simp only [List.length_drop]
      refine ⟨a.length - s.length, by omega, by omega, ?_, ?_⟩
      · have h6 := congrArg (List.take (a.length - s.length)) h4
        rw [List.take_append_of_le_length (by omega)] at h6
        rw [List.take_left' hklen] at h6
        rw [h6]
        exact List.drop_suffix _ _
      · have h7 := congrArg (List.drop (a.length - s.length)) h4
        rw [List.drop_append_of_le_length (by omega)] at h7
        rw [List.drop_left' hklen] at h7
        exact ⟨t, h7⟩

theorem infix_cons_of {l₁ l₂ : List Char} (c : Char) (h : l₁ <:+: l₂) :
    l₁ <:+: c :: l₂ := by
  obtain ⟨s, t, hst⟩ := h
  exact ⟨c :: s, t, by simp [hst]⟩

theorem replaceGo_id (pat repl : List Char) :
    ∀ f s, s.length ≤ f → ¬ pat <:+: s → replaceGo pat repl f s = s := by
  intro f
  induction f with
  | zero =>
    intro s hf _
    have : s = [] := List.length_eq_zero.mp (Nat.le_zero.mp hf)
    subst this
    rfl
  | succ f ih =>
    intro s hf hno
    cases s with
    | nil => rfl
    | cons c cs =>
      have hcond : ¬ (pat ≠ [] ∧ pat.isPrefixOf (c :: cs)) := by
        rintro ⟨-, hp2⟩
        exact hno (List.isPrefixOf_iff_prefix.mp hp2).isInfix
      simp only [replaceGo, if_neg hcond]
      rw [ih cs (by simpa using hf) (fun h => hno (infix_cons_of c h))]

theorem replaceGo_self (pat repl : List Char)
    (hpat : pat ≠ [])
    (hrep : ¬ pat <:+: repl)
    (hpre : ∀ k, 0 < k → k < pat.length → ¬ (pat.take k <:+ repl))
    (hsuf : ∀ j, 0 < j → j < pat.length →
      ¬ (pat.drop j <+: repl) ∧ ¬ (repl <+: pat.drop j)) :
    ∀ f s, s.length ≤ f →
      (¬ pat <:+: replaceGo pat repl f s)
      ∧ (∀ j, 0 < j → j < pat.length →
          pat.drop j <+: replaceGo pat repl f s → pat.drop j <+: s) := by
  intro f
  induction f with
  | zero =>
    intro s hf
    have hs : s = [] := List.length_eq_zero.mp (Nat.le_zero.mp hf)
    subst hs
    constructor
    · intro h
      exact hpat (List.infix_nil.mp (by simpa [replaceGo] using h))
    · intro j hj hjlen hp
      have h0 : pat.drop j = [] := List.prefix_nil.mp (by simpa [replaceGo] using hp)
      have h1 := congrArg List.length h0
      simp only [List.length_drop, List.length_nil] at h1
      omega
  | succ f ih =>
    intro s hf
    cases s with
    | nil =>
      constructor
      · intro h
        exact hpat (List.infix_nil.mp (by simpa [replaceGo] using h))
      · intro j hj hjlen hp
        have h0 : pat.drop j = [] := List.prefix_nil.mp (by simpa [replaceGo] using hp)
        have h1 := congrArg List.length h0
        simp only [List.length_drop, List.length_nil] at h1
        omega
    | cons c cs =>
      by_cases hm : pat ≠ [] ∧ pat.isPrefixOf (c :: cs)
      · have hgo : replaceGo pat repl (f + 1) (c :: cs)
            = repl ++ replaceGo pat repl f (cs.drop (pat.length - 1)) := by
          simp only [replaceGo, if_pos hm]
        have hlen : (cs.drop (pat.length - 1)).length ≤ f := by
          have := List.length_drop (pat.length - 1) cs
          simp only [List.length_cons] at hf
          omega
        obtain ⟨ih1, ih2⟩ := ih _ hlen
        constructor
        · rw [hgo]
          intro hinf
          rcases infix_append_cases hinf with h | h | ⟨k, hk0, hklen, hka, hkb⟩
          · exact hrep h
          · exact ih1 h
          · exact hpre k hk0 hklen hka
        · rw [hgo]
          intro j hj hjlen hp
          rcases prefix_append_split hp with h | h
          · exact absurd h (hsuf j hj hjlen).1
          · exact absurd h (hsuf j hj hjlen).2
      · have hgo : replaceGo pat repl (f + 1) (c :: cs)
            = c :: replaceGo pat repl f cs := by
          simp only [replaceGo, if_neg hm]
        have hm' : ¬ pat <+: (c :: cs) := by
          intro hpf
          exact hm ⟨hpat, List.isPrefixOf_iff_prefix.mpr hpf⟩
        have hlen : cs.length ≤ f := by
          simp only [List.length_cons] at hf
          omega
        obtain ⟨ih1, ih2⟩ := ih cs hlen
        have htransfer : ∀ j, 0 < j → j < pat.length →
            pat.drop j <+: c :: replaceGo pat repl f cs → pat.drop j <+: c :: cs := by
          intro j hj hjlen hp
          rw [List.drop_eq_getElem_cons hjlen] at hp ⊢
          rw [List.cons_prefix_cons] at hp ⊢
          refine ⟨hp.1, ?_⟩
          by_cases hj1 : j + 1 < pat.length
          · exact ih2 (j + 1) (by omega) hj1 hp.2
          · have hnil : pat.drop (j + 1) = [] := List.drop_eq_nil_of_le (by omega)
            rw [hnil]
            exact List.nil_prefix
        constructor
        · rw [hgo]
          intro hinf
          rcases infix_cons_cases hinf with h | h
          · obtain ⟨d, p', hdp⟩ := List.exists_cons_of_ne_nil hpat
            subst hdp
            rw [List.cons_prefix_cons] at h
            by_cases hp' : p' = []
            · subst hp'
              exact hm' (by rw [h.1]; exact ⟨cs, rfl⟩)
            · have hlen1 : 1 < (d :: p').length := by
                have := List.length_pos.mpr hp'
                simp only [List.length_cons]
                omega
              have h2 := ih2 1 (by omega) hlen1 (by simpa using h.2)
              exact hm' (List.cons_prefix_cons.mpr ⟨h.1, by simpa using h2⟩)
          · exact ih1 h
        · rw [hgo]
          exact htransfer

theorem replaceGo_preserve (pat repl p : List Char)
    (hp : p ≠ [])
    (hrep : ¬ p <:+: repl)
    (hpre : ∀ k, 0 < k → k < p.length → ¬ (p.take k <:+ repl))
    (hsuf : ∀ j, 0 < j → j < p.length →
      ¬ (p.drop j <+: repl) ∧ ¬ (repl <+: p.drop j)) :
    ∀ f s, s.length ≤ f →
      (¬ p <:+: s → ¬ p <:+: replaceGo pat repl f s)
      ∧ (∀ j, 0 < j → j < p.length →
          p.drop j <+: replaceGo pat repl f s → p.drop j <+: s) := by
  intro f
  induction f with
  | zero =>
    intro s hf
    have hs : s = [] := List.length_eq_zero.mp (Nat.le_zero.mp hf)
    subst hs
    constructor
    · intro hno h
      exact hno (by simpa [replaceGo] using h)
    · intro j hj hjlen hpre'
      have h0 : p.drop j = [] := List.prefix_nil.mp (by simpa [replaceGo] using hpre')
      have h1 := congrArg List.length h0
      simp only [List.length_drop, List.length_nil] at h1
      omega
  | succ f ih =>
    intro s hf
    cases s with
    | nil =>
      constructor
      · intro hno h
        exact hno (by simpa [replaceGo] using h)
      · intro j hj hjlen hpre'
        have h0 : p.drop j = [] := List.prefix_nil.mp (by simpa [replaceGo] using hpre')
        have h1 := congrArg List.length h0
        simp only [List.length_drop, List.length_nil] at h1
        omega
    | cons c cs =>
      by_cases hm : pat ≠ [] ∧ pat.isPrefixOf (c :: cs)
      · have hgo : replaceGo pat repl (f + 1) (c :: cs)
            = repl ++ replaceGo pat repl f (cs.drop (pat.length - 1)) := by
          simp only [replaceGo, if_pos hm]
        have hlen : (cs.drop (pat.length - 1)).length ≤ f := by
          have := List.length_drop (pat.length - 1) cs
          simp only [List.length_cons] at hf
          omega
        obtain ⟨ih1, ih2⟩ := ih _ hlen
        constructor
        · intro hno
          rw [hgo]
          intro hinf
          have hno' : ¬ p <:+: cs.drop (pat.length - 1) := by
            intro hx
            exact hno (infix_cons_of c
              (hx.trans (List.drop_suffix _ _).isInfix))
          rcases infix_append_cases hinf with h | h | ⟨k, hk0, hklen, hka, hkb⟩
          · exact hrep h
          · exact ih1 hno' h
          · exact hpre k hk0 hklen hka
        · rw [hgo]
          intro j hj hjlen hpre'
          rcases prefix_append_split hpre' with h | h
          · exact absurd h (hsuf j hj hjlen).1
          · exact absurd h (hsuf j hj hjlen).2
      · have hgo : replaceGo pat repl (f + 1) (c :: cs)
            = c :: replaceGo pat repl f cs := by
          simp only [replaceGo, if_neg hm]
        have hlen : cs.length ≤ f := by
          simp only [List.length_cons] at hf
          omega
        obtain ⟨ih1, ih2⟩ := ih cs hlen
        have htransfer : ∀ j, 0 < j → j < p.length →
            p.drop j <+: c :: replaceGo pat repl f cs → p.drop j <+: c :: cs := by
          intro j hj hjlen hpre'
          rw [List.drop_eq_getElem_cons hjlen] at hpre' ⊢
          rw [List.cons_prefix_cons] at hpre' ⊢
          refine ⟨hpre'.1, ?_⟩
          by_cases hj1 : j + 1 < p.length
          · exact ih2 (j + 1) (by omega) hj1 hpre'.2
          · have hnil : p.drop (j + 1) = [] := List.drop_eq_nil_of_le (by omega)
            rw [hnil]
            exact List.nil_prefix
        constructor
        · intro hno
          rw [hgo]
          intro hinf
          rcases infix_cons_cases hinf with h | h
          · obtain ⟨d, p', hdp⟩ := List.exists_cons_of_ne_nil hp
            subst hdp
            rw [List.cons_prefix_cons] at h
            by_cases hp' : p' = []
            · subst hp'
              exact hno (List.IsPrefix.isInfix (by rw [h.1]; exact ⟨cs, rfl⟩))
            · have hlen1 : 1 < (d :: p').length := by
                have := List.length_pos.mpr hp'
                simp only [List.length_cons]
                omega
              have h2 := ih2 1 (by omega) hlen1 (by simpa using h.2)
              exact hno (List.IsPrefix.isInfix
                (List.cons_prefix_cons.mpr ⟨h.1, by simpa using h2⟩))
          · exact ih1 (fun hx => hno (infix_cons_of c hx)) h
        · rw [hgo]
          exact htransfer

/-- C9: `rectify_endpoints` is idempotent — after one pass no occurrence
of `http:`, `:None/api/jena` or `:443/api/jena` remains (none of the
replacement strings can recreate one, even across replacement
boundaries), so a second pass changes nothing. -/
theorem rectify_endpoints_idempotent (s : String) :
    rectifyEndpointsS (rectifyEndpointsS s) = rectifyEndpointsS s := by
  suffices h : ∀ t : List Char,
      rectify_endpoints (rectify_endpoints t) = rectify_endpoints t by
    simp [rectifyEndpointsS, h]
  intro t
  have hself1 := replaceGo_self "http:".data "https:".data
    (by decide) (by decide)
    (fun k hk0 hklt => (by decide :
      ∀ k, k < "http:".data.length → 0 < k →
        ¬ ("http:".data.take k <:+ "https:".data)) k hklt hk0)
    (fun j hj0 hjlt => (by decide :
      ∀ j, j < "http:".data.length → 0 < j →
        ¬ ("http:".data.drop j <+: "https:".data)
        ∧ ¬ ("https:".data <+: "http:".data.drop j)) j hjlt hj0)
  have hself2 := replaceGo_self ":None/api/jena".data "/api/v1/jena".data
    (by decide) (by decide)
    (fun k hk0 hklt => (by decide :
      ∀ k, k < ":None/api/jena".data.length → 0 < k →
        ¬ (":None/api/jena".data.take k <:+ "/api/v1/jena".data)) k hklt hk0)
    (fun j hj0 hjlt => (by decide :
      ∀ j, j < ":None/api/jena".data.length → 0 < j →
        ¬ (":None/api/jena".data.drop j <+: "/api/v1/jena".data)
        ∧ ¬ ("/api/v1/jena".data <+: ":None/api/jena".data.drop j)) j hjlt hj0)
  have hself3 := replaceGo_self ":443/api/jena".data "/api/v1/jena".data
    (by decide) (by decide)
    (fun k hk0 hklt => (by decide :
      ∀ k, k < ":443/api/jena".data.length → 0 < k →
        ¬ (":443/api/jena".data.take k <:+ "/api/v1/jena".data)) k hklt hk0)
    (fun j hj0 hjlt => (by decide :
      ∀ j, j < ":443/api/jena".data.length → 0 < j →
        ¬ (":443/api/jena".data.drop j <+: "/api/v1/jena".data)
        ∧ ¬ ("/api/v1/jena".data <+: ":443/api/jena".data.drop j)) j hjlt hj0)
  have hpres12 := replaceGo_preserve ":None/api/jena".data "/api/v1/jena".data
    "http:".data
    (by decide) (by decide)
    (fun k hk0 hklt => (by decide :
      ∀ k, k < "http:".data.length → 0 < k →
        ¬ ("http:".data.take k <:+ "/api/v1/jena".data)) k hklt hk0)
    (fun j hj0 hjlt => (by decide :
      ∀ j, j < "http:".data.length → 0 < j →
        ¬ ("http:".data.drop j <+: "/api/v1/jena".data)
        ∧ ¬ ("/api/v1/jena".data <+: "http:".data.drop j)) j hjlt hj0)
  have hpres13 := replaceGo_preserve ":443/api/jena".data "/api/v1/jena".data
    "http:".data
    (by decide) (by decide)
    (fun k hk0 hklt => (by decide :
      ∀ k, k < "http:".data.length → 0 < k →
        ¬ ("http:".data.take k <:+ "/api/v1/jena".data)) k hklt hk0)
    (fun j hj0 hjlt => (by decide :
      ∀ j, j < "http:".data.length → 0 < j →
        ¬ ("http:".data.drop j <+: "/api/v1/jena".data)
        ∧ ¬ ("/api/v1/jena".data <+: "http:".data.drop j)) j hjlt hj0)
  have hpres23 := replaceGo_preserve ":443/api/jena".data "/api/v1/jena".data
    ":None/api/jena".data
    (by decide) (by decide)
    (fun k hk0 hklt => (by decide :
      ∀ k, k < ":None/api/jena".data.length → 0 < k →
        ¬ (":None/api/jena".data.take k <:+ "/api/v1/jena".data)) k hklt hk0)
    (fun j hj0 hjlt => (by decide :
      ∀ j, j < ":None/api/jena".data.length → 0 < j →
        ¬ (":None/api/jena".data.drop j <+: "/api/v1/jena".data)
        ∧ ¬ ("/api/v1/jena".data <+: ":None/api/jena".data.drop j)) j hjlt hj0)
  have x1 : ¬ "http:".data <:+: pyReplace t "http:".data "https:".data :=
    (hself1 t.length t le_rfl).1
  have x2 : ¬ "http:".data <:+:
      pyReplace (pyReplace t "http:".data "https:".data)
        ":None/api/jena".data "/api/v1/jena".data :=
    (hpres12 _ _ le_rfl).1 x1
  have hno1 : ¬ "http:".data <:+: rectify_endpoints t :=
    (hpres13 _ _ le_rfl).1 x2
  have y1 : ¬ ":None/api/jena".data <:+:
      pyReplace (pyReplace t "http:".data "https:".data)
        ":None/api/jena".data "/api/v1/jena".data :=
    (hself2 _ _ le_rfl).1
  have hno2 : ¬ ":None/api/jena".data <:+: rectify_endpoints t :=
    (hpres23 _ _ le_rfl).1 y1
  have hno3 : ¬ ":443/api/jena".data <:+: rectify_endpoints t :=
    (hself3 _ _ le_rfl).1
  have e1 : pyReplace (rectify_endpoints t) "http:".data "https:".data
      = rectify_endpoints t :=
    replaceGo_id _ _ _ _ le_rfl hno1
  have e2 : pyReplace (rectify_endpoints t) ":None/api/jena".data "/api/v1/jena".data
      = rectify_endpoints t :=
    replaceGo_id _ _ _ _ le_rfl hno2
  have e3 : pyReplace (rectify_endpoints t) ":443/api/jena".data "/api/v1/jena".data
      = rectify_endpoints t :=
    replaceGo_id _ _ _ _ le_rfl hno3
  calc rectify_endpoints (rectify_endpoints t)
      = pyReplace (pyReplace (pyReplace (rectify_endpoints t) "http:".data "https:".data)
          ":None/api/jena".data "/api/v1/jena".data)
          ":443/api/jena".data "/api/v1/jena".data := rfl
    _ = pyReplace (pyReplace (rectify_endpoints t)
          ":None/api/jena".data "/api/v1/jena".data)
          ":443/api/jena".data "/api/v1/jena".data := by rw [e1]
    _ = pyReplace (rectify_endpoints t) ":443/api/jena".data "/api/v1/jena".data := by
          rw [e2]
    _ = rectify_endpoints t := e3
